import Mathlib

/-!
Shallow embedding of `backend/app/engine.py` (Grid_Cycles).

Prices and grid steps are Python `Decimal` values; the engine performs exact
decimal arithmetic on them (division precision 28 is exact on all in-range
money values), which we embed as exact rational arithmetic over `ℚ`.
Nanosecond timestamps are `ℤ`.  Python `dict`s (insertion-ordered, unique
keys) are embedded as association lists: lookup finds the first binding,
assignment updates an existing binding in place or appends a fresh one at the
end, and `pop` removes the (unique) binding of a key.
-/

/-- `d.get(k)` / `d[k]`: the value bound to `k`, if any (first binding). -/
def dget {α : Type} : List (ℚ × α) → ℚ → Option α
  | [], _ => none
  | (k', v) :: rest, k => if k' = k then some v else dget rest k

/-- `d[k] = v`: update the binding of `k` in place, or append it at the end
(Python dicts preserve insertion order and update keys in place). -/
def dset {α : Type} : List (ℚ × α) → ℚ → α → List (ℚ × α)
  | [], k, v => [(k, v)]
  | (k', v') :: rest, k, v =>
      if k' = k then (k', v) :: rest else (k', v') :: dset rest k v

/-- `d.pop(k, None)`: remove the binding of `k`.  Keys are unique in every
dict the engine builds, so removing all bindings of `k` is the same as
removing the first. -/
def dpop {α : Type} (d : List (ℚ × α)) (k : ℚ) : List (ℚ × α) :=
  d.filter (fun kv => decide (kv.1 ≠ k))

/-- `is_on_grid(x, step)`: `q = x / step; q == q.to_integral_value()` — the
exact quotient equals its rounding to an integer iff it is an integer, i.e.
iff its reduced denominator is 1. -/
def is_on_grid (x step : ℚ) : Bool :=
  decide ((x / step).den = 1)

/-- `floor_to_step(price, step) = (price / step).to_integral_value(ROUND_FLOOR) * step`. -/
def floor_to_step (price step : ℚ) : ℚ :=
  (⌊price / step⌋ : ℤ) * step

/-- `crossed_up(p0, p1, target) = p0 < target <= p1`. -/
def crossed_up (p0 p1 target : ℚ) : Bool :=
  decide (p0 < target) && decide (target ≤ p1)

/-- `crossed_down(p0, p1, level) = p0 > level >= p1`. -/
def crossed_down (p0 p1 level : ℚ) : Bool :=
  decide (level < p0) && decide (p1 ≤ level)

/-- The mutable state of `GridEngine` (config fields plus the per-level
dicts, the previous-tick bookkeeping and the sample counter). -/
structure GridEngine where
  step : ℚ
  spread : ℚ
  exact_only : Bool
  level_min : Option ℚ
  level_max : Option ℚ
  armed : List (ℚ × Bool)
  armed_ns : List (ℚ × ℤ)
  cycles : List (ℚ × ℕ)
  first_close_ns : List (ℚ × ℤ)
  last_close_ns : List (ℚ × ℤ)
  durations_s : List (ℚ × List ℚ)
  prev_price : Option ℚ
  prev_ns : Option ℤ
  samples : ℕ
  deriving DecidableEq

/-- `GridEngine.__init__` after the validity check passed: all dicts empty,
no previous tick, zero samples. -/
def mkEngine (step spread : ℚ) (exact_only : Bool)
    (level_min level_max : Option ℚ) : GridEngine :=
  { step := step, spread := spread, exact_only := exact_only
    level_min := level_min, level_max := level_max
    armed := [], armed_ns := []
    cycles := [], first_close_ns := [], last_close_ns := [], durations_s := []
    prev_price := none, prev_ns := none, samples := 0 }

/-- `GridEngine.__init__` including the `step <= 0 or spread <= 0` check
(`ValueError` embedded as `none`). -/
def mkEngineChecked (step spread : ℚ) (exact_only : Bool)
    (level_min level_max : Option ℚ) : Option GridEngine :=
  if step ≤ 0 ∨ spread ≤ 0 then none
  else some (mkEngine step spread exact_only level_min level_max)

namespace GridEngine

/-- `GridEngine._in_band`: `L` passes the optional `level_min`/`level_max`
filters. -/
def in_band (s : GridEngine) (L : ℚ) : Bool :=
  (match s.level_min with
   | none => true
   | some lo => decide (lo ≤ L)) &&
  (match s.level_max with
   | none => true
   | some hi => decide (L ≤ hi))

/-- `self.armed.get(L, False)`. -/
def armedFlag (s : GridEngine) (L : ℚ) : Bool :=
  (dget s.armed L).getD false

/-- `GridEngine._arm`. -/
def arm (s : GridEngine) (L : ℚ) (ns : ℤ) : GridEngine :=
  if s.in_band L = false then s
  else if s.armedFlag L = false then
    { s with armed := dset s.armed L true, armed_ns := dset s.armed_ns L ns }
  else s

/-- `GridEngine._close`. -/
def close (s : GridEngine) (L : ℚ) (ns : ℤ) : GridEngine :=
  if s.in_band L = false then s
  else
    let s1 := { s with cycles := dset s.cycles L ((dget s.cycles L).getD 0 + 1),
                       last_close_ns := dset s.last_close_ns L ns }
    let s2 := if (dget s1.first_close_ns L).isNone
              then { s1 with first_close_ns := dset s1.first_close_ns L ns }
              else s1
    let s3 := match dget s2.armed_ns L with
              | some a =>
                  let dur : ℚ := ((ns - a : ℤ) : ℚ) / 1000000000
                  let ds := ((dget s2.durations_s L).getD []) ++ [dur]
                  { s2 with durations_s := dset s2.durations_s L ds }
              | none => s2
    { s3 with armed := dset s3.armed L false, armed_ns := dpop s3.armed_ns L }

/-- `GridEngine._close_if_hit`. -/
def close_if_hit (s : GridEngine) (p0 p1 L : ℚ) (ns : ℤ) : GridEngine :=
  if s.armedFlag L then
    if crossed_up p0 p1 (L + s.spread) then s.close L ns else s
  else s

end GridEngine

/-- One iteration body of the downward-enumeration loop:
`if crossed_down(p0, p1, L): self._arm(L, ns)`. -/
def armStep (p0 p1 : ℚ) (ns : ℤ) (st : GridEngine) (L : ℚ) : GridEngine :=
  if crossed_down p0 p1 L then st.arm L ns else st

/-- One iteration body of the upward pass over the armed-keys snapshot:
`if self.armed[L]: self._close_if_hit(p0, p1, L, ns)`. -/
def closeStep (p0 p1 : ℚ) (ns : ℤ) (st : GridEngine) (L : ℚ) : GridEngine :=
  if st.armedFlag L then st.close_if_hit p0 p1 L ns else st

/-- The grid levels visited by the `while L >= end_L` loop:
`floor_to_step(p0, step), floor_to_step(p0, step) - step, ...,
floor_to_step(p1, step)` — the closed form of the loop trajectory, proved
equal to the literal while loop (`armLoopWhile`) below. -/
def downLevels (p0 p1 step : ℚ) : List ℚ :=
  (List.range (⌊p0 / step⌋ - ⌊p1 / step⌋ + 1).toNat).map
    (fun i : ℕ => ((⌊p0 / step⌋ - (i : ℤ) : ℤ) : ℚ) * step)

namespace GridEngine

/-- The whole downward-move branch of `feed` (lines 114–121). -/
def downPass (s : GridEngine) (p0 p1 : ℚ) (ns : ℤ) : GridEngine :=
  (downLevels p0 p1 s.step).foldl (armStep p0 p1 ns) s

/-- The whole upward-move branch of `feed` (lines 123–127): iterate a
snapshot `list(self.armed.keys())` taken before any close. -/
def upPass (s : GridEngine) (p0 p1 : ℚ) (ns : ℤ) : GridEngine :=
  (s.armed.map Prod.fst).foldl (closeStep p0 p1 ns) s

/-- `GridEngine.feed`. -/
def feed (s : GridEngine) (price : ℚ) (ns : ℤ) : GridEngine :=
  let s0 := { s with samples := s.samples + 1 }
  if s0.exact_only then
    let Lc := price - s0.spread
    let s1 := if is_on_grid Lc s0.step && s0.armedFlag Lc then s0.close Lc ns else s0
    let s2 := if is_on_grid price s1.step then s1.arm price ns else s1
    { s2 with prev_price := some price, prev_ns := some ns }
  else
    match s0.prev_price with
    | none => { s0 with prev_price := some price, prev_ns := some ns }
    | some p0 =>
      let p1 := price
      let s1 :=
        if p1 < p0 then s0.downPass p0 p1 ns
        else if p0 < p1 then s0.upPass p0 p1 ns
        else s0
      { s1 with prev_price := some p1, prev_ns := some ns }

/-- `GridEngine._median` (durations are embedded as exact rationals). -/
def median (xs : List ℚ) : Option ℚ :=
  let n := xs.length
  if n = 0 then none
  else
    let ys := List.insertionSort (fun a b : ℚ => a ≤ b) xs
    let m := n / 2
    if n % 2 = 1 then some (ys.getD m 0)
    else some ((ys.getD (m - 1) 0 + ys.getD m 0) / 2)

end GridEngine

/-- One row of `finalize()["top_levels"]`.  `level` keeps the exact decimal
value (the source renders it with `str`, which is injective on these keys). -/
structure TopRow where
  level : ℚ
  cycles : ℕ
  first_close_ns : Option ℤ
  last_close_ns : Option ℤ
  median_secs : Option ℚ
  deriving DecidableEq

/-- The value returned by `GridEngine.finalize`. -/
structure Report where
  totals : List (ℚ × ℕ)
  top_levels : List TopRow
  samples : ℕ
  deriving DecidableEq

namespace GridEngine

/-- `GridEngine.finalize`: `totals` is `cycles` sorted ascending by level;
`top_levels` is `cycles` stable-sorted descending by count (Python `sorted`
with `reverse=True` keeps ties in dict insertion order), truncated to 25. -/
def finalize (s : GridEngine) : Report :=
  let totals := List.insertionSort (fun a b : ℚ × ℕ => a.1 ≤ b.1) s.cycles
  let byCount := List.insertionSort (fun a b : ℚ × ℕ => b.2 ≤ a.2) s.cycles
  let top := (byCount.take 25).map (fun kv =>
    { level := kv.1, cycles := kv.2
      first_close_ns := dget s.first_close_ns kv.1
      last_close_ns := dget s.last_close_ns kv.1
      median_secs := median ((dget s.durations_s kv.1).getD []) : TopRow })
  { totals := totals, top_levels := top, samples := s.samples }

end GridEngine

/-- Feed a whole tick sequence in order. -/
def runEngine (s : GridEngine) (ts : List (ℚ × ℤ)) : GridEngine :=
  ts.foldl (fun st t => st.feed t.1 t.2) s

/-- The engine state after the first `n` ticks of `ts`. -/
def stateAt (e : GridEngine) (ts : List (ℚ × ℤ)) (n : ℕ) : GridEngine :=
  runEngine e (ts.take n)

/-- `self.cycles.get(L, 0)`. -/
def cyclesAt (s : GridEngine) (L : ℚ) : ℕ :=
  (dget s.cycles L).getD 0

/-- The literal `while L >= end_L` loop of `feed`'s downward branch, with the
loop-invariant data (`end_L`, `step`, positivity of `step`) as parameters;
well-founded on the number of remaining iterations.  Lean accepting this
definition is the termination argument of the source loop. -/
def armLoopWhile (endL step : ℚ) (h : 0 < step) (p0 p1 : ℚ) (ns : ℤ)
    (s : GridEngine) (L : ℚ) : GridEngine :=
  if endL ≤ L then
    armLoopWhile endL step h p0 p1 ns (armStep p0 p1 ns s L) (L - step)
  else s
termination_by (⌊(L - endL) / step⌋ + 1).toNat
decreasing_by
  have hnum : 0 ≤ (L - endL) / step := by
    apply div_nonneg _ h.le
    linarith
  have hfl : (0 : ℤ) ≤ ⌊(L - endL) / step⌋ := Int.floor_nonneg.mpr hnum
  have hstep : (L - step - endL) / step = (L - endL) / step - 1 := by
    field_simp
    ring
  rw [hstep]
  have : ⌊(L - endL) / step - 1⌋ = ⌊(L - endL) / step⌋ - 1 := by
    have h1 := Int.floor_sub_int ((L - endL) / step) 1
    push_cast at h1
    exact h1
  rw [this]
  omega

/-! ### Dictionary lemmas -/

theorem dget_dset_self {α : Type} (d : List (ℚ × α)) (k : ℚ) (v : α) :
    dget (dset d k v) k = some v := by
  induction d with
  | nil => simp [dget, dset]
  | cons kv rest ih =>
    obtain ⟨k', v'⟩ := kv
    by_cases h : k' = k <;> simp [dget, dset, h, ih]

theorem dget_dset_ne {α : Type} (d : List (ℚ × α)) (k k' : ℚ) (v : α)
    (h : k' ≠ k) : dget (dset d k v) k' = dget d k' := by
  have hk : ¬ k = k' := fun hh => h hh.symm
  induction d with
  | nil => simp [dget, dset, hk]
  | cons kv rest ih =>
    obtain ⟨k0, v0⟩ := kv
    by_cases h0 : k0 = k
    · subst h0
      simp [dget, dset, hk]
    · by_cases h1 : k0 = k' <;> simp [dget, dset, h0, h1, h, ih]

theorem dget_dpop_self {α : Type} (d : List (ℚ × α)) (k : ℚ) :
    dget (dpop d k) k = none := by
  induction d with
  | nil => simp [dget, dpop]
  | cons kv rest ih =>
    obtain ⟨k0, v0⟩ := kv
    by_cases h : k0 = k
    · subst h
      simpa [dpop, List.filter_cons] using ih
    · simpa [dpop, List.filter_cons, h, dget] using ih

theorem dget_dpop_ne {α : Type} (d : List (ℚ × α)) (k k' : ℚ)
    (h : k' ≠ k) : dget (dpop d k) k' = dget d k' := by
  induction d with
  | nil => simp [dget, dpop]
  | cons kv rest ih =>
    obtain ⟨k0, v0⟩ := kv
    by_cases h0 : k0 = k
    · subst h0
      have h1 : ¬ k0 = k' := fun hh => h hh.symm
      simpa [dpop, List.filter_cons, dget, h1] using ih
    · by_cases h1 : k0 = k'
      · simp [dpop, List.filter_cons, dget, h, h0, h1]
      · simpa [dpop, List.filter_cons, dget, h0, h1] using ih

theorem dget_eq_none_iff {α : Type} (d : List (ℚ × α)) (k : ℚ) :
    dget d k = none ↔ k ∉ d.map Prod.fst := by
  induction d with
  | nil => simp [dget]
  | cons kv rest ih =>
    obtain ⟨k0, v0⟩ := kv
    by_cases h : k0 = k
    · subst h
      simp [dget]
    · have h' : ¬ k = k0 := fun hh => h hh.symm
      simp [dget, h, h', ih]

/-! ### Config fields are never mutated -/

/-- The construction-time configuration of an engine state. -/
def GridEngine.config (s : GridEngine) : ℚ × ℚ × Bool × Option ℚ × Option ℚ :=
  (s.step, s.spread, s.exact_only, s.level_min, s.level_max)

theorem config_arm (s : GridEngine) (L : ℚ) (ns : ℤ) :
    (s.arm L ns).config = s.config := by
  dsimp only [GridEngine.arm]
  split
  · rfl
  · split <;> rfl

theorem config_close (s : GridEngine) (L : ℚ) (ns : ℤ) :
    (s.close L ns).config = s.config := by
  dsimp only [GridEngine.close]
  split
  · rfl
  · split <;> split <;> rfl

theorem config_close_if_hit (s : GridEngine) (p0 p1 L : ℚ) (ns : ℤ) :
    (s.close_if_hit p0 p1 L ns).config = s.config := by
  dsimp only [GridEngine.close_if_hit]
  split
  · split
    · exact config_close s L ns
    · rfl
  · rfl

theorem config_armStep (p0 p1 : ℚ) (ns : ℤ) (st : GridEngine) (L : ℚ) :
    (armStep p0 p1 ns st L).config = st.config := by
  dsimp only [armStep]
  split
  · exact config_arm st L ns
  · rfl

theorem config_closeStep (p0 p1 : ℚ) (ns : ℤ) (st : GridEngine) (L : ℚ) :
    (closeStep p0 p1 ns st L).config = st.config := by
  dsimp only [closeStep]
  split
  · exact config_close_if_hit st p0 p1 L ns
  · rfl

theorem config_foldl {β : Type} (f : GridEngine → β → GridEngine)
    (hf : ∀ st b, (f st b).config = st.config) :
    ∀ (l : List β) (st : GridEngine), (l.foldl f st).config = st.config := by
  intro l
  induction l with
  | nil => intro st; rfl
  | cons b rest ih => intro st; rw [List.foldl_cons, ih, hf]

theorem config_downPass (s : GridEngine) (p0 p1 : ℚ) (ns : ℤ) :
    (s.downPass p0 p1 ns).config = s.config :=
  config_foldl _ (fun st L => config_armStep p0 p1 ns st L) _ s

theorem config_upPass (s : GridEngine) (p0 p1 : ℚ) (ns : ℤ) :
    (s.upPass p0 p1 ns).config = s.config :=
  config_foldl _ (fun st L => config_closeStep p0 p1 ns st L) _ s

theorem config_feed (s : GridEngine) (price : ℚ) (ns : ℤ) :
    (s.feed price ns).config = s.config := by
  dsimp only [GridEngine.feed]
  split
  · split <;> split <;>
      first
        | rfl
        | exact (config_arm _ _ _).trans rfl
        | exact (config_close _ _ _).trans rfl
        | exact (config_arm _ _ _).trans ((config_close _ _ _).trans rfl)
  · split
    · rfl
    · split
      · exact (config_downPass _ _ _ _).trans rfl
      · split
        · exact (config_upPass _ _ _ _).trans rfl
        · rfl

theorem config_runEngine (e : GridEngine) (ts : List (ℚ × ℤ)) :
    (runEngine e ts).config = e.config := by
  unfold runEngine
  exact config_foldl _ (fun st b => config_feed st b.1 b.2) ts e

theorem in_band_eq_of_config {s t : GridEngine} (h : s.config = t.config)
    (L : ℚ) : s.in_band L = t.in_band L := by
  have h4 : s.level_min = t.level_min := congrArg (fun c => c.2.2.2.1) h
  have h5 : s.level_max = t.level_max := congrArg (fun c => c.2.2.2.2) h
  unfold GridEngine.in_band
  rw [h4, h5]

theorem spread_eq_of_config {s t : GridEngine} (h : s.config = t.config) :
    s.spread = t.spread :=
  congrArg (fun c => c.2.1) h

theorem step_eq_of_config {s t : GridEngine} (h : s.config = t.config) :
    s.step = t.step :=
  congrArg (fun c => c.1) h

/-! ### Effect lemmas for `_arm` and `_close` -/

theorem arm_eq_of_not_in_band {s : GridEngine} {L : ℚ} (ns : ℤ)
    (h : s.in_band L = false) : s.arm L ns = s := by
  dsimp only [GridEngine.arm]
  rw [if_pos h]

theorem close_eq_of_not_in_band {s : GridEngine} {L : ℚ} (ns : ℤ)
    (h : s.in_band L = false) : s.close L ns = s := by
  dsimp only [GridEngine.close]
  rw [if_pos h]

theorem arm_cycles (s : GridEngine) (L : ℚ) (ns : ℤ) :
    (s.arm L ns).cycles = s.cycles := by
  dsimp only [GridEngine.arm]
  split
  · rfl
  · split <;> rfl

theorem arm_durations (s : GridEngine) (L : ℚ) (ns : ℤ) :
    (s.arm L ns).durations_s = s.durations_s := by
  dsimp only [GridEngine.arm]
  split
  · rfl
  · split <;> rfl

theorem arm_first_close (s : GridEngine) (L : ℚ) (ns : ℤ) :
    (s.arm L ns).first_close_ns = s.first_close_ns := by
  dsimp only [GridEngine.arm]
  split
  · rfl
  · split <;> rfl

theorem arm_last_close (s : GridEngine) (L : ℚ) (ns : ℤ) :
    (s.arm L ns).last_close_ns = s.last_close_ns := by
  dsimp only [GridEngine.arm]
  split
  · rfl
  · split <;> rfl

theorem armedFlag_arm_ne {s : GridEngine} {L L' : ℚ} (ns : ℤ) (h : L' ≠ L) :
    (s.arm L ns).armedFlag L' = s.armedFlag L' := by
  dsimp only [GridEngine.arm, GridEngine.armedFlag]
  split
  · rfl
  · split
    · simp [dget_dset_ne _ _ _ _ h]
    · rfl

theorem armed_ns_arm_ne {s : GridEngine} {L L' : ℚ} (ns : ℤ) (h : L' ≠ L) :
    dget (s.arm L ns).armed_ns L' = dget s.armed_ns L' := by
  dsimp only [GridEngine.arm]
  split
  · rfl
  · split
    · simp [dget_dset_ne _ _ _ _ h]
    · rfl

theorem armedFlag_arm_self {s : GridEngine} {L : ℚ} (ns : ℤ)
    (h : s.in_band L = true) : (s.arm L ns).armedFlag L = true := by
  dsimp only [GridEngine.arm]
  rw [if_neg (by simp [h])]
  split
  · dsimp only [GridEngine.armedFlag]
    simp [dget_dset_self]
  · rename_i hf
    simpa using hf

theorem armedFlag_arm_mono {s : GridEngine} {L L' : ℚ} (ns : ℤ)
    (h : s.armedFlag L' = true) : (s.arm L ns).armedFlag L' = true := by
  by_cases he : L' = L
  · subst he
    dsimp only [GridEngine.arm]
    split
    · exact h
    · split
      · rename_i hf
        rw [h] at hf
        exact absurd hf (by simp)
      · exact h
  · rw [armedFlag_arm_ne ns he]
    exact h

theorem armed_ns_arm_self {s : GridEngine} {L : ℚ} (ns : ℤ)
    (h : s.in_band L = true) (h2 : s.armedFlag L = false) :
    dget (s.arm L ns).armed_ns L = some ns := by
  dsimp only [GridEngine.arm]
  rw [if_neg (by simp [h]), if_pos h2]
  simp [dget_dset_self]

theorem cycles_close_ne {s : GridEngine} {L L' : ℚ} (ns : ℤ) (h : L' ≠ L) :
    dget (s.close L ns).cycles L' = dget s.cycles L' := by
  dsimp only [GridEngine.close]
  split
  · rfl
  · split <;> split <;> simp [dget_dset_ne _ _ _ _ h]

theorem cycles_close_self {s : GridEngine} {L : ℚ} (ns : ℤ)
    (h : s.in_band L = true) :
    dget (s.close L ns).cycles L = some ((dget s.cycles L).getD 0 + 1) := by
  dsimp only [GridEngine.close]
  rw [if_neg (by simp [h])]
  split <;> split <;> simp [dget_dset_self]

theorem armedFlag_close_self {s : GridEngine} {L : ℚ} (ns : ℤ)
    (h : s.in_band L = true) : (s.close L ns).armedFlag L = false := by
  dsimp only [GridEngine.close, GridEngine.armedFlag]
  rw [if_neg (by simp [h])]
  split <;> split <;> simp [dget_dset_self]

theorem armedFlag_close_ne {s : GridEngine} {L L' : ℚ} (ns : ℤ) (h : L' ≠ L) :
    (s.close L ns).armedFlag L' = s.armedFlag L' := by
  dsimp only [GridEngine.close, GridEngine.armedFlag]
  split
  · rfl
  · split <;> split <;> simp [dget_dset_ne _ _ _ _ h]

theorem armed_ns_close_self {s : GridEngine} {L : ℚ} (ns : ℤ) :
    dget (s.close L ns).armed_ns L = if s.in_band L = true then none
      else dget s.armed_ns L := by
  dsimp only [GridEngine.close]
  by_cases hb : s.in_band L = false
  · rw [if_pos hb, if_neg (by simp [hb])]
  · have hb' : s.in_band L = true := by simpa using hb
    rw [if_neg hb, if_pos hb']
    split <;> split <;> simp [dget_dpop_self]

theorem armed_ns_close_ne {s : GridEngine} {L L' : ℚ} (ns : ℤ) (h : L' ≠ L) :
    dget (s.close L ns).armed_ns L' = dget s.armed_ns L' := by
  dsimp only [GridEngine.close]
  split
  · rfl
  · split <;> split <;> simp [dget_dpop_ne _ _ _ h]

theorem armedFlag_close_mono {s : GridEngine} {L L' : ℚ} (ns : ℤ)
    (h : (s.close L ns).armedFlag L' = true) : s.armedFlag L' = true := by
  by_cases he : L' = L
  · subst he
    by_cases hb : s.in_band L' = true
    · rw [armedFlag_close_self ns hb] at h
      exact absurd h (by simp)
    · rwa [close_eq_of_not_in_band ns (by simpa using hb)] at h
  · rwa [armedFlag_close_ne ns he] at h

theorem durations_close_ne {s : GridEngine} {L L' : ℚ} (ns : ℤ) (h : L' ≠ L) :
    dget (s.close L ns).durations_s L' = dget s.durations_s L' := by
  dsimp only [GridEngine.close]
  split
  · rfl
  · split <;> split <;> simp [dget_dset_ne _ _ _ _ h]

theorem durations_close_self_some {s : GridEngine} {L : ℚ} {a : ℤ} (ns : ℤ)
    (h : s.in_band L = true) (ha : dget s.armed_ns L = some a) :
    dget (s.close L ns).durations_s L =
      some (((dget s.durations_s L).getD []) ++ [((ns - a : ℤ) : ℚ) / 1000000000]) := by
  dsimp only [GridEngine.close]
  rw [if_neg (by simp [h])]
  simp only [apply_ite GridEngine.armed_ns, ite_self, ha]
  split <;> simp [dget_dset_self]

theorem durations_close_self_none {s : GridEngine} {L : ℚ} (ns : ℤ)
    (ha : dget s.armed_ns L = none) :
    dget (s.close L ns).durations_s L = dget s.durations_s L := by
  dsimp only [GridEngine.close]
  split
  · rfl
  · simp only [apply_ite GridEngine.armed_ns, ite_self, ha]
    split <;> rfl

theorem first_close_close_ne {s : GridEngine} {L L' : ℚ} (ns : ℤ) (h : L' ≠ L) :
    dget (s.close L ns).first_close_ns L' = dget s.first_close_ns L' := by
  dsimp only [GridEngine.close]
  split
  · rfl
  · split <;> split <;> simp [dget_dset_ne _ _ _ _ h]

theorem last_close_close_ne {s : GridEngine} {L L' : ℚ} (ns : ℤ) (h : L' ≠ L) :
    dget (s.close L ns).last_close_ns L' = dget s.last_close_ns L' := by
  dsimp only [GridEngine.close]
  split
  · rfl
  · split <;> split <;> simp [dget_dset_ne _ _ _ _ h]

/-! ### Grid arithmetic: C6 -/

/-- C6: with exact decimal arithmetic, every integer multiple of `step` is
on-grid, and the point a third of a step above any multiple never is.
For every `step > 0` and every integer `k`, `is_on_grid(k*step, step)` is
true and `is_on_grid(k*step + step/3, step)` is false. -/
theorem claim_C6 (step : ℚ) (k : ℤ) (h : 0 < step) :
    is_on_grid ((k : ℚ) * step) step = true ∧
    is_on_grid ((k : ℚ) * step + step / 3) step = false := by
  have hne : step ≠ 0 := ne_of_gt h
  constructor
  · unfold is_on_grid
    rw [mul_div_assoc, div_self hne, mul_one]
    simp
  · unfold is_on_grid
    have hq : ((k : ℚ) * step + step / 3) / step = (k : ℚ) + 1 / 3 := by
      field_simp
      ring
    rw [hq]
    simp only [decide_eq_false_iff_not]
    intro hden
    have hnum : (((k : ℚ) + 1 / 3).num : ℚ) = (k : ℚ) + 1 / 3 :=
      (Rat.den_eq_one_iff _).mp hden
    have h3 : (3 : ℚ) * (((k : ℚ) + 1 / 3).num : ℚ) = 3 * (k : ℚ) + 1 := by
      rw [hnum]; ring
    have h3' : 3 * ((k : ℚ) + 1 / 3).num = 3 * k + 1 := by exact_mod_cast h3
    omega

/-- Witness for C6 at `step = 1/100`, `k = 7`. -/
theorem claim_C6_witness :
    0 < (1 / 100 : ℚ) ∧
    (is_on_grid ((7 : ℤ) * (1 / 100 : ℚ)) (1 / 100) = true ∧
     is_on_grid ((7 : ℤ) * (1 / 100 : ℚ) + (1 / 100 : ℚ) / 3) (1 / 100) = false) :=
  ⟨by norm_num, claim_C6 (1 / 100) 7 (by norm_num)⟩

/-! ### C10: the down-enumeration while loop terminates -/

/-- The levels `M, M - step, ..., M - (k-1)*step` visited in `k` iterations
starting at `M`. -/
def levelsFrom (M step : ℚ) (k : ℕ) : List ℚ :=
  (List.range k).map (fun i : ℕ => M - (i : ℚ) * step)

theorem levelsFrom_succ (M step : ℚ) (k : ℕ) :
    levelsFrom M step (k + 1) = M :: levelsFrom (M - step) step k := by
  unfold levelsFrom
  rw [List.range_succ_eq_map, List.map_cons, List.map_map]
  congr 1
  · simp
  · apply List.map_congr_left
    intro i _
    simp only [Function.comp]
    push_cast
    ring

theorem armLoopWhile_eq_fold (endL step : ℚ) (h : 0 < step) (p0 p1 : ℚ)
    (ns : ℤ) :
    ∀ (k : ℕ) (s : GridEngine) (L : ℚ),
      (⌊(L - endL) / step⌋ + 1).toNat = k →
      armLoopWhile endL step h p0 p1 ns s L =
        (levelsFrom L step k).foldl (armStep p0 p1 ns) s := by
  intro k
  induction k with
  | zero =>
    intro s L hk
    have hneg : (L - endL) / step < 0 := by
      by_contra hge
      push_neg at hge
      have := Int.floor_nonneg.mpr hge
      omega
    have hLlt : L < endL := by
      rcases div_neg_iff.mp hneg with ⟨_, hb⟩ | ⟨ha, _⟩
      · linarith
      · linarith
    rw [armLoopWhile, if_neg (not_le.mpr hLlt)]
    simp [levelsFrom]
  | succ k ih =>
    intro s L hk
    have hnn : (0 : ℤ) ≤ ⌊(L - endL) / step⌋ := by omega
    have hge : endL ≤ L := by
      have hq : (0 : ℚ) ≤ (L - endL) / step := Int.floor_nonneg.mp hnn
      rcases div_nonneg_iff.mp hq with ⟨ha, _⟩ | ⟨_, hb⟩
      · linarith
      · linarith
    rw [armLoopWhile, if_pos hge]
    have hsub : (L - step - endL) / step = (L - endL) / step - 1 := by
      field_simp
      ring
    have hmeas : (⌊(L - step - endL) / step⌋ + 1).toNat = k := by
      rw [hsub]
      have h1 := Int.floor_sub_int ((L - endL) / step) 1
      push_cast at h1
      rw [h1]
      omega
    rw [ih _ _ hmeas, levelsFrom_succ]
    rfl

theorem downLevels_eq_levelsFrom (p0 p1 step : ℚ) :
    downLevels p0 p1 step =
      levelsFrom (floor_to_step p0 step) step
        (⌊p0 / step⌋ - ⌊p1 / step⌋ + 1).toNat := by
  unfold downLevels levelsFrom floor_to_step
  apply List.map_congr_left
  intro i _
  push_cast
  ring

theorem armLoopWhile_eq_downPass (s : GridEngine) (p0 p1 step : ℚ) (ns : ℤ)
    (h : 0 < step) (hs : s.step = step) :
    armLoopWhile (floor_to_step p1 step) step h p0 p1 ns s
        (floor_to_step p0 step) = s.downPass p0 p1 ns := by
  subst hs
  have hne : s.step ≠ 0 := ne_of_gt h
  have hcount : (⌊(floor_to_step p0 s.step - floor_to_step p1 s.step) / s.step⌋ + 1).toNat
      = (⌊p0 / s.step⌋ - ⌊p1 / s.step⌋ + 1).toNat := by
    have hdiv : (floor_to_step p0 s.step - floor_to_step p1 s.step) / s.step
        = ((⌊p0 / s.step⌋ - ⌊p1 / s.step⌋ : ℤ) : ℚ) := by
      unfold floor_to_step
      field_simp
      ring
    rw [hdiv, Int.floor_intCast]
  rw [armLoopWhile_eq_fold _ _ h p0 p1 ns _ s _ hcount]
  unfold GridEngine.downPass
  rw [downLevels_eq_levelsFrom]

/-- C10: `feed` terminates on every tick.  The downward level-enumeration
loop, written literally as the while loop `armLoopWhile` (well-founded on
the remaining iteration count, which requires `step > 0`: the loop variable
starts at `floor_to_step(p0, step)`, decreases by `step` each iteration and
exits once below `floor_to_step(p1, step)`), terminates and computes exactly
the bounded enumeration `downPass` that `feed` performs on a downward move. -/
theorem claim_C10 (s : GridEngine) (p0 p1 : ℚ) (ns : ℤ) (h : 0 < s.step)
    (hmode : s.exact_only = false) (hprev : s.prev_price = some p0)
    (hdown : p1 < p0) :
    s.feed p1 ns =
      { armLoopWhile (floor_to_step p1 s.step) s.step h p0 p1 ns
          { s with samples := s.samples + 1 } (floor_to_step p0 s.step) with
        prev_price := some p1, prev_ns := some ns } := by
  have hloop := armLoopWhile_eq_downPass { s with samples := s.samples + 1 }
    p0 p1 s.step ns h rfl
  dsimp only [GridEngine.feed]
  rw [if_neg (by simp [hmode])]
  split
  · rename_i heq
    rw [hprev] at heq
    cases heq
  · rename_i p0' heq
    rw [hprev] at heq
    injection heq with h2
    subst h2
    rw [if_pos hdown, hloop]

/-- Concrete engine used to witness C10: a fresh gap-aware unit-grid engine
after one tick at price 3. -/
def c10s : GridEngine :=
  (mkEngine 1 1 false none none).feed 3 0

theorem c10s_step_pos : 0 < c10s.step := by decide

/-- Witness for C10: the loop/fold equivalence at the concrete down-tick
3 → 1. -/
theorem claim_C10_witness :
    c10s.feed 1 1 =
      { armLoopWhile (floor_to_step 1 c10s.step) c10s.step
          c10s_step_pos 3 1 1
          { c10s with samples := c10s.samples + 1 }
          (floor_to_step 3 c10s.step) with
        prev_price := some 1, prev_ns := some 1 } :=
  claim_C10 c10s 3 1 1 c10s_step_pos (by decide) (by decide) (by decide)

/-! ### C1: which enumerated levels get armed on a down move -/

theorem armedFlag_set_prev (X : GridEngine) (p : Option ℚ) (n : Option ℤ)
    (L : ℚ) :
    GridEngine.armedFlag { X with prev_price := p, prev_ns := n } L =
      X.armedFlag L := rfl

theorem armedFlag_foldl_armStep_mono (p0 p1 : ℚ) (ns : ℤ) (L : ℚ) :
    ∀ (l : List ℚ) (st : GridEngine), st.armedFlag L = true →
      (l.foldl (armStep p0 p1 ns) st).armedFlag L = true := by
  intro l
  induction l with
  | nil => intro st h; exact h
  | cons a rest ih =>
    intro st h
    rw [List.foldl_cons]
    apply ih
    unfold armStep
    split
    · exact armedFlag_arm_mono ns h
    · exact h

theorem downFold_arms (p0 p1 : ℚ) (ns : ℤ) (L : ℚ) :
    ∀ (l : List ℚ) (st : GridEngine), L ∈ l → crossed_down p0 p1 L = true →
      st.in_band L = true →
      (l.foldl (armStep p0 p1 ns) st).armedFlag L = true := by
  intro l
  induction l with
  | nil => intro st h; cases h
  | cons a rest ih =>
    intro st hmem hcr hband
    rw [List.foldl_cons]
    rcases List.mem_cons.mp hmem with rfl | hmem2
    · apply armedFlag_foldl_armStep_mono
      unfold armStep
      rw [if_pos hcr]
      exact armedFlag_arm_self ns hband
    · apply ih _ hmem2 hcr
      rw [in_band_eq_of_config (config_armStep p0 p1 ns st a) L]
      exact hband

theorem mem_downLevels {p0 p1 step L : ℚ} {k : ℤ} (h : 0 < step)
    (hL : L = (k : ℚ) * step) (h1 : L < p0) (h2 : p1 ≤ L) :
    L ∈ downLevels p0 p1 step := by
  have hkm : k ≤ ⌊p0 / step⌋ := by
    apply Int.le_floor.mpr
    rw [le_div_iff₀ h]
    exact le_of_lt (hL ▸ h1)
  have hnk : ⌊p1 / step⌋ ≤ k := by
    have hd : p1 / step ≤ ((k : ℤ) : ℚ) := by
      rw [div_le_iff₀ h]
      exact hL ▸ h2
    have := Int.floor_le_floor hd
    rwa [Int.floor_intCast] at this
  unfold downLevels
  refine List.mem_map.mpr ⟨(⌊p0 / step⌋ - k).toNat, ?_, ?_⟩
  · exact List.mem_range.mpr (by omega)
  · have hcast : ((⌊p0 / step⌋ - k).toNat : ℤ) = ⌊p0 / step⌋ - k :=
      Int.toNat_of_nonneg (by omega)
    rw [hcast, hL]
    push_cast
    ring

/-- C1 (amended): in gap-aware mode a down tick `p1 < p0` arms every grid
line it passes through — every in-band multiple `L = k*step` with
`p0 > L ≥ p1`.  (The original claim — that `crossed_down` holds for *every*
enumerated level, so every enumerated level is armed — is refuted by
`claim_C1_counterexample`: the top enumerated level `floor_to_step(p0)` is
not crossed when `p0` is exactly on-grid.) -/
theorem claim_C1 (s : GridEngine) (p0 p1 L : ℚ) (k : ℤ) (ns : ℤ)
    (hstep : 0 < s.step) (hmode : s.exact_only = false)
    (hprev : s.prev_price = some p0) (hdown : p1 < p0)
    (hL : L = (k : ℚ) * s.step) (h1 : L < p0) (h2 : p1 ≤ L)
    (hband : s.in_band L = true) :
    (s.feed p1 ns).armedFlag L = true := by
  have hcr : crossed_down p0 p1 L = true := by
    unfold crossed_down
    simp [h1, h2]
  dsimp only [GridEngine.feed]
  rw [if_neg (by simp [hmode])]
  split
  · rename_i heq
    rw [hprev] at heq
    cases heq
  · rename_i p0' heq
    rw [hprev] at heq
    injection heq with h3
    subst h3
    rw [if_pos hdown, armedFlag_set_prev]
    unfold GridEngine.downPass
    exact downFold_arms p0 p1 ns L _ _
      (mem_downLevels hstep hL h1 h2) hcr hband

/-- Concrete two-tick engine for C1: gap-aware unit grid, ticks 3 then 1. -/
def c1e : GridEngine :=
  runEngine (mkEngine 1 1 false none none) [(3, 0), (1, 1)]

/-- Counterexample to C1 as stated: on the down move 3 → 1 the level 3 is
enumerated (`3 = floor_to_step(3,1)` is the first scanned level), but
`crossed_down(3, 1, 3)` is false (`3 > 3` fails), and level 3 ends not
armed, while the genuinely crossed level 2 is armed.  So the predicate does
not hold for every enumerated level, and not every enumerated level is
armed. -/
theorem claim_C1_counterexample :
    (3 : ℚ) ∈ downLevels 3 1 1 ∧
    crossed_down 3 1 3 = false ∧
    c1e.armedFlag 3 = false ∧
    c1e.armedFlag 2 = true := by
  with_unfolding_all decide

/-- Witness for C1 applied at the concrete down tick 3 → 1 with `L = 2`. -/
theorem claim_C1_witness :
    (((mkEngine 1 1 false none none).feed 3 0).feed 1 1).armedFlag 2 =
      true :=
  claim_C1 ((mkEngine 1 1 false none none).feed 3 0) 3 1 2 2 1
    (by with_unfolding_all decide) (by with_unfolding_all decide)
    (by with_unfolding_all decide) (by with_unfolding_all decide)
    (by with_unfolding_all decide) (by with_unfolding_all decide)
    (by with_unfolding_all decide) (by with_unfolding_all decide)

/-! ### C2: Close on a non-armed level -/

/-- Counterexample to C2 as stated: `_close` itself does not check the armed
flag.  On a fresh engine (level 2 not armed, in band) `_close(2, 7)` is not
a no-op: it increments `cycle_count` of level 2 to 1 and records close
timestamps (no duration is appended since no arm timestamp exists). -/
theorem claim_C2_counterexample :
    (mkEngine 1 1 false none none).armedFlag 2 = false ∧
    GridEngine.close (mkEngine 1 1 false none none) 2 7 ≠
      mkEngine 1 1 false none none ∧
    dget (GridEngine.close (mkEngine 1 1 false none none) 2 7).cycles 2 =
      some 1 := by
  with_unfolding_all decide

/-- C2 (amended): the engine's guarded close path is the safe no-op: for
every state, `_close_if_hit` on a level whose armed flag is false leaves the
state completely unchanged.  `_close` itself, however, is not a no-op on a
non-armed in-band level (see `claim_C2_counterexample`): all of the engine's
`_close` call sites first check the armed flag. -/
theorem claim_C2 (s : GridEngine) (p0 p1 L : ℚ) (ns : ℤ)
    (h : s.armedFlag L = false) : s.close_if_hit p0 p1 L ns = s := by
  unfold GridEngine.close_if_hit
  rw [if_neg (by simp [h])]

/-- Witness for C2: `_close_if_hit` at a non-armed level of a fresh engine. -/
theorem claim_C2_witness :
    GridEngine.close_if_hit (mkEngine 1 1 false none none) 0 4 2 7 =
      mkEngine 1 1 false none none :=
  claim_C2 (mkEngine 1 1 false none none) 0 4 2 7
    (by with_unfolding_all decide)

/-! ### C5: determinism -/

/-- C5: feeding the identical ordered tick sequence into two freshly
constructed engines with identical config and finalizing yields identical
reports (totals, top_levels and samples).  The engine is a pure function of
its config and input stream: no other state influences the output. -/
theorem claim_C5 (step1 spread1 : ℚ) (eo1 : Bool) (lmin1 lmax1 : Option ℚ)
    (step2 spread2 : ℚ) (eo2 : Bool) (lmin2 lmax2 : Option ℚ)
    (ts1 ts2 : List (ℚ × ℤ))
    (hstep : step1 = step2) (hspread : spread1 = spread2) (heo : eo1 = eo2)
    (hmin : lmin1 = lmin2) (hmax : lmax1 = lmax2) (hts : ts1 = ts2) :
    (runEngine (mkEngine step1 spread1 eo1 lmin1 lmax1) ts1).finalize =
      (runEngine (mkEngine step2 spread2 eo2 lmin2 lmax2) ts2).finalize := by
  subst hstep hspread heo hmin hmax hts
  rfl

/-- Witness for C5 at a concrete config and tick sequence. -/
theorem claim_C5_witness :
    (runEngine (mkEngine 1 1 false none none) [(3, 0), (1, 1), (4, 2)]).finalize =
      (runEngine (mkEngine 1 1 false none none) [(3, 0), (1, 1), (4, 2)]).finalize :=
  claim_C5 1 1 false none none 1 1 false none none
    [(3, 0), (1, 1), (4, 2)] [(3, 0), (1, 1), (4, 2)]
    rfl rfl rfl rfl rfl rfl

/-! ### The armed/armed_ns and cycles/durations invariants (C8, C9) -/

theorem armedFlag_true_iff (s : GridEngine) (L : ℚ) :
    s.armedFlag L = true ↔ dget s.armed L = some true := by
  unfold GridEngine.armedFlag
  cases h : dget s.armed L <;> simp

/-- C8's invariant: a level's armed flag is set iff an arm timestamp is
recorded for it. -/
def ArmInv (s : GridEngine) : Prop :=
  ∀ L, s.armedFlag L = true ↔ (dget s.armed_ns L).isSome = true

/-- C9's invariant: every counted cycle has recorded exactly one duration. -/
def CountInv (s : GridEngine) : Prop :=
  ∀ L, (dget s.cycles L).getD 0 = ((dget s.durations_s L).getD []).length

/-- The two data invariants bundled, as preserved by every operation. -/
def EngineInv (s : GridEngine) : Prop := ArmInv s ∧ CountInv s

theorem ArmInv_arm {s : GridEngine} (L : ℚ) (ns : ℤ) (h : ArmInv s) :
    ArmInv (s.arm L ns) := by
  intro L'
  unfold GridEngine.arm
  split
  · exact h L'
  · split
    · by_cases he : L' = L
      · subst he
        simp [GridEngine.armedFlag, dget_dset_self]
      · have hh := h L'
        unfold GridEngine.armedFlag at hh ⊢
        simpa [dget_dset_ne _ _ _ _ he] using hh
    · exact h L'

theorem ArmInv_close {s : GridEngine} (L : ℚ) (ns : ℤ) (h : ArmInv s) :
    ArmInv (s.close L ns) := by
  intro L'
  by_cases hb : s.in_band L = false
  · rw [close_eq_of_not_in_band ns hb]
    exact h L'
  · have hb' : s.in_band L = true := by simpa using hb
    by_cases he : L' = L
    · subst he
      rw [armedFlag_close_self ns hb', armed_ns_close_self, if_pos hb']
      simp
    · rw [armedFlag_close_ne ns he, armed_ns_close_ne ns he]
      exact h L'

theorem CountInv_arm {s : GridEngine} (L : ℚ) (ns : ℤ) (h : CountInv s) :
    CountInv (s.arm L ns) := by
  intro L'
  rw [arm_cycles, arm_durations]
  exact h L'

theorem CountInv_close {s : GridEngine} (L : ℚ) (ns : ℤ) (hA : ArmInv s)
    (hC : CountInv s) (hf : s.armedFlag L = true) :
    CountInv (s.close L ns) := by
  intro L'
  by_cases hb : s.in_band L = false
  · rw [close_eq_of_not_in_band ns hb]
    exact hC L'
  · have hb' : s.in_band L = true := by simpa using hb
    by_cases he : L' = L
    · subst he
      obtain ⟨a, ha⟩ := Option.isSome_iff_exists.mp ((hA L').mp hf)
      rw [cycles_close_self ns hb', durations_close_self_some ns hb' ha]
      simp [hC L']
    · rw [cycles_close_ne ns he, durations_close_ne ns he]
      exact hC L'

theorem EngineInv_arm {s : GridEngine} (L : ℚ) (ns : ℤ) (h : EngineInv s) :
    EngineInv (s.arm L ns) :=
  ⟨ArmInv_arm L ns h.1, CountInv_arm L ns h.2⟩

theorem EngineInv_close_if_hit {s : GridEngine} (p0 p1 L : ℚ) (ns : ℤ)
    (h : EngineInv s) : EngineInv (s.close_if_hit p0 p1 L ns) := by
  unfold GridEngine.close_if_hit
  split
  · rename_i hf
    split
    · exact ⟨ArmInv_close L ns h.1, CountInv_close L ns h.1 h.2 hf⟩
    · exact h
  · exact h

theorem EngineInv_armStep {st : GridEngine} (p0 p1 : ℚ) (ns : ℤ) (L : ℚ)
    (h : EngineInv st) : EngineInv (armStep p0 p1 ns st L) := by
  unfold armStep
  split
  · exact EngineInv_arm L ns h
  · exact h

theorem EngineInv_closeStep {st : GridEngine} (p0 p1 : ℚ) (ns : ℤ) (L : ℚ)
    (h : EngineInv st) : EngineInv (closeStep p0 p1 ns st L) := by
  unfold closeStep
  split
  · exact EngineInv_close_if_hit p0 p1 L ns h
  · exact h

theorem EngineInv_foldl {β : Type} (f : GridEngine → β → GridEngine)
    (hf : ∀ st b, EngineInv st → EngineInv (f st b)) :
    ∀ (l : List β) (st : GridEngine), EngineInv st → EngineInv (l.foldl f st) := by
  intro l
  induction l with
  | nil => intro st h; exact h
  | cons b rest ih =>
    intro st h
    rw [List.foldl_cons]
    exact ih _ (hf st b h)

theorem and_true_right {a b : Bool} (h : (a && b) = true) : b = true := by
  cases a <;> cases b <;> simp_all

theorem EngineInv_feed {s : GridEngine} (price : ℚ) (ns : ℤ)
    (h : EngineInv s) : EngineInv (s.feed price ns) := by
  have h0 : EngineInv { s with samples := s.samples + 1 } := h
  dsimp only [GridEngine.feed]
  split
  · split <;> split <;> rename_i hc1 hc2 <;>
      first
        | exact EngineInv_arm _ _ h0
        | exact h0
        | exact EngineInv_arm _ _ ⟨ArmInv_close _ _ h0.1,
            CountInv_close _ _ h0.1 h0.2 (and_true_right hc1)⟩
        | exact EngineInv_arm _ _ ⟨ArmInv_close _ _ h0.1,
            CountInv_close _ _ h0.1 h0.2 (and_true_right hc2)⟩
        | exact ⟨ArmInv_close _ _ h0.1,
            CountInv_close _ _ h0.1 h0.2 (and_true_right hc1)⟩
  · split
    · exact h0
    · split
      · exact EngineInv_foldl _ (fun st b => EngineInv_armStep _ _ _ _) _ _ h0
      · split
        · exact EngineInv_foldl _ (fun st b => EngineInv_closeStep _ _ _ _) _ _ h0
        · exact h0

theorem EngineInv_mkEngine (step spread : ℚ) (eo : Bool)
    (lmin lmax : Option ℚ) : EngineInv (mkEngine step spread eo lmin lmax) := by
  constructor
  · intro L
    simp [mkEngine, GridEngine.armedFlag, dget]
  · intro L
    simp [mkEngine, dget]

theorem EngineInv_runEngine (e : GridEngine) (ts : List (ℚ × ℤ))
    (h : EngineInv e) : EngineInv (runEngine e ts) := by
  unfold runEngine
  exact EngineInv_foldl _ (fun st b => EngineInv_feed b.1 b.2) ts e h

/-- C8: after construction and any sequence of feeds, a level's armed flag
is `True` iff an arm timestamp is recorded for it (`armed_at` present iff
armed); `finalize` does not mutate the state (it is a pure projection). -/
theorem claim_C8 (step spread : ℚ) (eo : Bool) (lmin lmax : Option ℚ)
    (ts : List (ℚ × ℤ)) (L : ℚ) :
    dget (runEngine (mkEngine step spread eo lmin lmax) ts).armed L =
        some true ↔
      ∃ n, dget (runEngine (mkEngine step spread eo lmin lmax) ts).armed_ns L =
        some n := by
  have h := (EngineInv_runEngine _ ts
    (EngineInv_mkEngine step spread eo lmin lmax)).1 L
  rw [armedFlag_true_iff] at h
  rw [h]
  exact Option.isSome_iff_exists

/-- C9: for every validly constructed engine and every tick sequence, each
level's cycle count equals the length of its durations list — every counted
cycle records exactly one duration (the armed flag implies a recorded arm
timestamp, so every guarded close appends a duration). -/
theorem claim_C9 (step spread : ℚ) (eo : Bool) (lmin lmax : Option ℚ)
    (ts : List (ℚ × ℤ)) (L : ℚ) (_hstep : 0 < step) (_hspread : 0 < spread) :
    (dget (runEngine (mkEngine step spread eo lmin lmax) ts).cycles L).getD 0 =
      ((dget (runEngine (mkEngine step spread eo lmin lmax) ts).durations_s
        L).getD []).length :=
  (EngineInv_runEngine _ ts (EngineInv_mkEngine step spread eo lmin lmax)).2 L

/-- Witness for C9 at a concrete valid config and three-tick run. -/
theorem claim_C9_witness :
    (0 : ℚ) < 1 ∧
    (dget (runEngine (mkEngine 1 1 false none none)
        [(3, 0), (1, 1), (4, 2)]).cycles 2).getD 0 =
      ((dget (runEngine (mkEngine 1 1 false none none)
        [(3, 0), (1, 1), (4, 2)]).durations_s 2).getD []).length :=
  ⟨by norm_num,
   claim_C9 1 1 false none none [(3, 0), (1, 1), (4, 2)] 2 (by norm_num)
     (by norm_num)⟩

/-! ### C7: band filtering -/

theorem dget_armed_arm_ne {s : GridEngine} {L L' : ℚ} (ns : ℤ) (h : L' ≠ L) :
    dget (s.arm L ns).armed L' = dget s.armed L' := by
  dsimp only [GridEngine.arm]
  split
  · rfl
  · split
    · simp [dget_dset_ne _ _ _ _ h]
    · rfl

theorem dget_armed_close_ne {s : GridEngine} {L L' : ℚ} (ns : ℤ)
    (h : L' ≠ L) : dget (s.close L ns).armed L' = dget s.armed L' := by
  dsimp only [GridEngine.close]
  split
  · rfl
  · split <;> split <;> simp [dget_dset_ne _ _ _ _ h]

/-- A level no operation has ever touched: absent from every per-level dict. -/
def Untouched (s : GridEngine) (L : ℚ) : Prop :=
  dget s.armed L = none ∧ dget s.armed_ns L = none ∧
  dget s.cycles L = none ∧ dget s.first_close_ns L = none ∧
  dget s.last_close_ns L = none ∧ dget s.durations_s L = none

theorem Untouched_arm {s : GridEngine} {L : ℚ} (L' : ℚ) (ns : ℤ)
    (hband : s.in_band L = false) (h : Untouched s L) :
    Untouched (s.arm L' ns) L := by
  by_cases he : L' = L
  · subst he
    rw [arm_eq_of_not_in_band ns hband]
    exact h
  · have hne : L ≠ L' := fun hh => he hh.symm
    exact ⟨by rw [dget_armed_arm_ne ns hne]; exact h.1,
           by rw [armed_ns_arm_ne ns hne]; exact h.2.1,
           by rw [arm_cycles]; exact h.2.2.1,
           by rw [arm_first_close]; exact h.2.2.2.1,
           by rw [arm_last_close]; exact h.2.2.2.2.1,
           by rw [arm_durations]; exact h.2.2.2.2.2⟩

theorem Untouched_close {s : GridEngine} {L : ℚ} (L' : ℚ) (ns : ℤ)
    (hband : s.in_band L = false) (h : Untouched s L) :
    Untouched (s.close L' ns) L := by
  by_cases he : L' = L
  · subst he
    rw [close_eq_of_not_in_band ns hband]
    exact h
  · have hne : L ≠ L' := fun hh => he hh.symm
    exact ⟨by rw [dget_armed_close_ne ns hne]; exact h.1,
           by rw [armed_ns_close_ne ns hne]; exact h.2.1,
           by rw [cycles_close_ne ns hne]; exact h.2.2.1,
           by rw [first_close_close_ne ns hne]; exact h.2.2.2.1,
           by rw [last_close_close_ne ns hne]; exact h.2.2.2.2.1,
           by rw [durations_close_ne ns hne]; exact h.2.2.2.2.2⟩

theorem Untouched_close_if_hit {s : GridEngine} {L : ℚ} (p0 p1 L' : ℚ)
    (ns : ℤ) (hband : s.in_band L = false) (h : Untouched s L) :
    Untouched (s.close_if_hit p0 p1 L' ns) L := by
  unfold GridEngine.close_if_hit
  split
  · split
    · exact Untouched_close L' ns hband h
    · exact h
  · exact h

theorem Untouched_armStep {st : GridEngine} {L : ℚ} (p0 p1 L' : ℚ) (ns : ℤ)
    (hband : st.in_band L = false) (h : Untouched st L) :
    Untouched (armStep p0 p1 ns st L') L := by
  unfold armStep
  split
  · exact Untouched_arm L' ns hband h
  · exact h

theorem Untouched_closeStep {st : GridEngine} {L : ℚ} (p0 p1 L' : ℚ) (ns : ℤ)
    (hband : st.in_band L = false) (h : Untouched st L) :
    Untouched (closeStep p0 p1 ns st L') L := by
  unfold closeStep
  split
  · exact Untouched_close_if_hit p0 p1 L' ns hband h
  · exact h

theorem Untouched_foldl {β : Type} (f : GridEngine → β → GridEngine) (L : ℚ)
    (hcfg : ∀ st b, (f st b).config = st.config)
    (hf : ∀ st b, st.in_band L = false → Untouched st L → Untouched (f st b) L) :
    ∀ (l : List β) (st : GridEngine), st.in_band L = false → Untouched st L →
      Untouched (l.foldl f st) L := by
  intro l
  induction l with
  | nil => intro st _ h; exact h
  | cons b rest ih =>
    intro st hband h
    rw [List.foldl_cons]
    apply ih
    · rw [in_band_eq_of_config (hcfg st b)]
      exact hband
    · exact hf st b hband h

theorem Untouched_feed {s : GridEngine} {L : ℚ} (price : ℚ) (ns : ℤ)
    (hband : s.in_band L = false) (h : Untouched s L) :
    Untouched (s.feed price ns) L := by
  have h0 : Untouched { s with samples := s.samples + 1 } L := h
  have hb0 : GridEngine.in_band { s with samples := s.samples + 1 } L = false :=
    hband
  dsimp only [GridEngine.feed]
  split
  · split <;> split <;>
      first
        | exact Untouched_arm _ _ hb0 h0
        | exact h0
        | exact Untouched_arm _ _
            (by rw [in_band_eq_of_config (config_close _ _ _)]; exact hb0)
            (Untouched_close _ _ hb0 h0)
        | exact Untouched_close _ _ hb0 h0
  · split
    · exact h0
    · split
      · exact Untouched_foldl _ L (fun st b => config_armStep _ _ _ _ _)
          (fun st b hb hu => Untouched_armStep _ _ _ _ hb hu) _ _ hb0 h0
      · split
        · exact Untouched_foldl _ L (fun st b => config_closeStep _ _ _ _ _)
            (fun st b hb hu => Untouched_closeStep _ _ _ _ hb hu) _ _ hb0 h0
        · exact h0

theorem Untouched_runEngine (e : GridEngine) (ts : List (ℚ × ℤ)) (L : ℚ)
    (hband : e.in_band L = false) (h : Untouched e L) :
    Untouched (runEngine e ts) L := by
  unfold runEngine
  exact Untouched_foldl _ L (fun st b => config_feed st b.1 b.2)
    (fun st b hb hu => Untouched_feed b.1 b.2 hb hu) ts e hband h

theorem Untouched_mkEngine (step spread : ℚ) (eo : Bool)
    (lmin lmax : Option ℚ) (L : ℚ) :
    Untouched (mkEngine step spread eo lmin lmax) L := by
  refine ⟨rfl, rfl, rfl, rfl, rfl, rfl⟩

/-- C7: with a band configured, a level outside the inclusive
`[level_min, level_max]` band is never armed, none of its statistics ever
change (it never enters any per-level dict), and it never appears in
`finalize`'s totals or top_levels — arms and closes aimed at it are no-ops. -/
theorem claim_C7 (step spread : ℚ) (eo : Bool) (lmin lmax : Option ℚ)
    (ts : List (ℚ × ℤ)) (L : ℚ)
    (hband : (mkEngine step spread eo lmin lmax).in_band L = false) :
    Untouched (runEngine (mkEngine step spread eo lmin lmax) ts) L ∧
    L ∉ ((runEngine (mkEngine step spread eo lmin lmax) ts).finalize.totals.map
      Prod.fst) ∧
    L ∉ ((runEngine (mkEngine step spread eo lmin lmax) ts).finalize.top_levels.map
      TopRow.level) := by
  have hu : Untouched (runEngine (mkEngine step spread eo lmin lmax) ts) L :=
    Untouched_runEngine _ ts L hband
      (Untouched_mkEngine step spread eo lmin lmax L)
  have hnc : L ∉ (runEngine (mkEngine step spread eo lmin lmax) ts).cycles.map
      Prod.fst := (dget_eq_none_iff _ _).mp hu.2.2.1
  refine ⟨hu, ?_, ?_⟩
  · intro hmem
    unfold GridEngine.finalize at hmem
    dsimp only at hmem
    exact hnc (((List.perm_insertionSort _ _).map Prod.fst).subset hmem)
  · intro hmem
    unfold GridEngine.finalize at hmem
    dsimp only at hmem
    obtain ⟨row, hrow, hlev⟩ := List.mem_map.mp hmem
    obtain ⟨kv, hkv, hmk⟩ := List.mem_map.mp hrow
    have hkv2 : kv ∈ (runEngine (mkEngine step spread eo lmin lmax) ts).cycles :=
      (List.perm_insertionSort _ _).subset (List.take_subset _ _ hkv)
    apply hnc
    have : kv.1 = L := by
      rw [← hlev, ← hmk]
    rw [← this]
    exact List.mem_map_of_mem Prod.fst hkv2

/-- Witness for C7: band `[2, 3]`, level 1 is outside and untouched by a
run that crosses it repeatedly. -/
theorem claim_C7_witness :
    GridEngine.in_band (mkEngine 1 1 false (some 2) (some 3)) 1 = false ∧
    (Untouched (runEngine (mkEngine 1 1 false (some 2) (some 3))
      [(4, 0), (0, 1), (5, 2)]) 1 ∧
    (1 : ℚ) ∉ ((runEngine (mkEngine 1 1 false (some 2) (some 3))
      [(4, 0), (0, 1), (5, 2)]).finalize.totals.map Prod.fst) ∧
    (1 : ℚ) ∉ ((runEngine (mkEngine 1 1 false (some 2) (some 3))
      [(4, 0), (0, 1), (5, 2)]).finalize.top_levels.map TopRow.level)) :=
  ⟨by with_unfolding_all decide,
   claim_C7 1 1 false (some 2) (some 3) [(4, 0), (0, 1), (5, 2)] 1
     (by with_unfolding_all decide)⟩

/-! ### C3: top_levels ordering -/

/-- Counterexample to C3 as stated: run 3 → 0 → 4 on a unit grid closes
levels 2, 1, 0 once each, in that order (the upward pass iterates the armed
dict in insertion order).  `top_levels` then lists the all-tied rows as
levels 2, 1, 0 — the cycles dict's insertion order (order of first close) —
which is *descending* by level price, not ascending as claimed
(2 ≤ 1 fails). -/
theorem claim_C3_counterexample :
    ((runEngine (mkEngine 1 1 false none none)
        [(3, 0), (0, 1), (4, 2)]).finalize.top_levels.map TopRow.cycles =
      [1, 1, 1]) ∧
    ((runEngine (mkEngine 1 1 false none none)
        [(3, 0), (0, 1), (4, 2)]).finalize.top_levels.map TopRow.level =
      [2, 1, 0]) ∧
    ¬ ((2 : ℚ) ≤ 1) := by
  with_unfolding_all decide

theorem filter_orderedInsert_count (x : ℚ × ℕ) (l : List (ℚ × ℕ)) (c : ℕ) :
    (List.orderedInsert (fun a b : ℚ × ℕ => b.2 ≤ a.2) x l).filter
        (fun kv => decide (kv.2 = c)) =
      if x.2 = c then x :: l.filter (fun kv => decide (kv.2 = c))
      else l.filter (fun kv => decide (kv.2 = c)) := by
  induction l with
  | nil =>
    by_cases hx : x.2 = c <;> simp [List.orderedInsert, hx]
  | cons b l ih =>
    by_cases hr : b.2 ≤ x.2
    · rw [List.orderedInsert, if_pos hr]
      simp only [List.filter_cons]
      by_cases hx : x.2 = c <;> by_cases hb : b.2 = c <;> simp [hx, hb]
    · rw [List.orderedInsert, if_neg hr]
      simp only [List.filter_cons]
      by_cases hb : b.2 = c
      · have hx : ¬ x.2 = c := by omega
        simp [hb, hx, ih]
      · simp [hb, ih]

theorem filter_insertionSort_count (l : List (ℚ × ℕ)) (c : ℕ) :
    (List.insertionSort (fun a b : ℚ × ℕ => b.2 ≤ a.2) l).filter
        (fun kv => decide (kv.2 = c)) =
      l.filter (fun kv => decide (kv.2 = c)) := by
  induction l with
  | nil => rfl
  | cons x l ih =>
    rw [List.insertionSort, filter_orderedInsert_count, ih, List.filter_cons]
    by_cases hx : x.2 = c <;> simp [hx]

theorem map_toPair_of (f : ℚ × ℕ → TopRow)
    (hf : ∀ kv, (f kv).level = kv.1 ∧ (f kv).cycles = kv.2) :
    ∀ l : List (ℚ × ℕ),
      (l.map f).map (fun row => (row.level, row.cycles)) = l := by
  intro l
  induction l with
  | nil => rfl
  | cons a t ih => simp [ih, (hf a).1, (hf a).2]

/-- C3 (amended): `top_levels` holds at most 25 rows, drawn from the cycles
store and sorted by `cycle_count` descending; but rows with equal
`cycle_count` keep the cycles dict's insertion order — the order in which
the levels were *first closed* — not ascending level price (refuted by
`claim_C3_counterexample`).  The tie order is stated as: for every count
`c`, the tied rows form a sublist of the store's entries with count `c`, in
the store's own order. -/
theorem claim_C3 (s : GridEngine) :
    s.finalize.top_levels.length ≤ 25 ∧
    List.Pairwise (fun a b : TopRow => b.cycles ≤ a.cycles)
      s.finalize.top_levels ∧
    (∀ row ∈ s.finalize.top_levels, (row.level, row.cycles) ∈ s.cycles) ∧
    (∀ c : ℕ,
      List.Sublist
        ((s.finalize.top_levels.map (fun row => (row.level, row.cycles))).filter
          (fun kv => decide (kv.2 = c)))
        (s.cycles.filter (fun kv => decide (kv.2 = c)))) := by
  haveI : IsTotal (ℚ × ℕ) (fun a b => b.2 ≤ a.2) :=
    ⟨fun a b => le_total b.2 a.2⟩
  haveI : IsTrans (ℚ × ℕ) (fun a b => b.2 ≤ a.2) :=
    ⟨fun a b c h1 h2 => le_trans h2 h1⟩
  refine ⟨?_, ?_, ?_, ?_⟩
  · unfold GridEngine.finalize
    dsimp only
    rw [List.length_map, List.length_take]
    omega
  · unfold GridEngine.finalize
    dsimp only
    rw [List.pairwise_map]
    apply List.Pairwise.sublist (List.take_sublist _ _)
    exact List.sorted_insertionSort _ _
  · intro row hrow
    unfold GridEngine.finalize at hrow
    dsimp only at hrow
    obtain ⟨kv, hkv, hmk⟩ := List.mem_map.mp hrow
    have hkv2 : kv ∈ s.cycles :=
      (List.perm_insertionSort _ _).subset (List.take_subset _ _ hkv)
    have : (row.level, row.cycles) = kv := by
      rw [← hmk]
    rw [this]
    exact hkv2
  · intro c
    unfold GridEngine.finalize
    dsimp only
    rw [map_toPair_of _ (fun kv => ⟨rfl, rfl⟩)]
    have h1 : List.Sublist
        ((List.take 25 (List.insertionSort (fun a b : ℚ × ℕ => b.2 ≤ a.2)
          s.cycles)).filter (fun kv => decide (kv.2 = c)))
        ((List.insertionSort (fun a b : ℚ × ℕ => b.2 ≤ a.2)
          s.cycles).filter (fun kv => decide (kv.2 = c))) :=
      (List.take_sublist _ _).filter _
    have h2 : (List.insertionSort (fun a b : ℚ × ℕ => b.2 ≤ a.2)
          s.cycles).filter (fun kv => decide (kv.2 = c)) =
        s.cycles.filter (fun kv => decide (kv.2 = c)) :=
      filter_insertionSort_count s.cycles c
    exact h2 ▸ h1

/-! ### C4: re-arm gating -/

theorem cyclesAt_set_prev (X : GridEngine) (p : Option ℚ) (n : Option ℤ)
    (L : ℚ) :
    cyclesAt { X with prev_price := p, prev_ns := n } L = cyclesAt X L := rfl

theorem cyclesAt_arm (s : GridEngine) (L' : ℚ) (ns : ℤ) (L : ℚ) :
    cyclesAt (s.arm L' ns) L = cyclesAt s L := by
  unfold cyclesAt
  rw [arm_cycles]

theorem cyclesAt_close_ne {s : GridEngine} {L L' : ℚ} (ns : ℤ) (h : L' ≠ L) :
    cyclesAt (s.close L ns) L' = cyclesAt s L' := by
  unfold cyclesAt
  rw [cycles_close_ne ns h]

theorem cyclesAt_close_self {s : GridEngine} {L : ℚ} (ns : ℤ)
    (h : s.in_band L = true) :
    cyclesAt (s.close L ns) L = cyclesAt s L + 1 := by
  unfold cyclesAt
  rw [cycles_close_self ns h]
  rfl

theorem cyclesAt_ite_arm (c : Prop) [Decidable c] (X : GridEngine) (pr : ℚ)
    (ns : ℤ) (L : ℚ) :
    cyclesAt (if c then X.arm pr ns else X) L = cyclesAt X L := by
  split
  · exact cyclesAt_arm X pr ns L
  · rfl

theorem armedFlag_ite_arm_ne (c : Prop) [Decidable c] (X : GridEngine)
    (pr : ℚ) (ns : ℤ) {L : ℚ} (h : L ≠ pr) :
    GridEngine.armedFlag (if c then X.arm pr ns else X) L = X.armedFlag L := by
  split
  · exact armedFlag_arm_ne ns h
  · rfl

theorem foldl_armStep_cycles (p0 p1 : ℚ) (ns : ℤ) (L : ℚ) :
    ∀ (l : List ℚ) (st : GridEngine),
      cyclesAt (l.foldl (armStep p0 p1 ns) st) L = cyclesAt st L := by
  intro l
  induction l with
  | nil => intro st; rfl
  | cons a rest ih =>
    intro st
    rw [List.foldl_cons, ih]
    unfold armStep
    split
    · exact cyclesAt_arm st a ns L
    · rfl

theorem closeStep_flag_mono (p0 p1 : ℚ) (ns : ℤ) (st : GridEngine)
    (L' L : ℚ) (h : (closeStep p0 p1 ns st L').armedFlag L = true) :
    st.armedFlag L = true := by
  unfold closeStep GridEngine.close_if_hit at h
  split at h
  · split at h
    · exact armedFlag_close_mono ns h
    · exact h
  · exact h

theorem closeStep_cycles_changed (p0 p1 : ℚ) (ns : ℤ) (st : GridEngine)
    (L' L : ℚ)
    (h : cyclesAt (closeStep p0 p1 ns st L') L ≠ cyclesAt st L) :
    st.armedFlag L = true ∧ (closeStep p0 p1 ns st L').armedFlag L = false := by
  unfold closeStep GridEngine.close_if_hit at h ⊢
  by_cases hf : st.armedFlag L' = true
  · rw [if_pos hf, if_pos hf] at h ⊢
    by_cases hcr : crossed_up p0 p1 (L' + st.spread) = true
    · rw [if_pos hcr] at h ⊢
      by_cases he : L' = L
      · subst he
        refine ⟨hf, ?_⟩
        by_cases hb : st.in_band L' = false
        · rw [close_eq_of_not_in_band ns hb] at h
          exact absurd rfl h
        · have hb' : st.in_band L' = true := by simpa using hb
          exact armedFlag_close_self ns hb'
      · rw [cyclesAt_close_ne ns (fun hh => he hh.symm)] at h
        exact absurd rfl h
    · rw [if_neg hcr] at h
      exact absurd rfl h
  · rw [if_neg hf] at h
    exact absurd rfl h

theorem foldl_closeStep_flag_mono (p0 p1 : ℚ) (ns : ℤ) (L : ℚ) :
    ∀ (l : List ℚ) (st : GridEngine),
      (l.foldl (closeStep p0 p1 ns) st).armedFlag L = true →
      st.armedFlag L = true := by
  intro l
  induction l with
  | nil => intro st h; exact h
  | cons a rest ih =>
    intro st h
    rw [List.foldl_cons] at h
    exact closeStep_flag_mono p0 p1 ns st a L (ih _ h)

theorem foldl_closeStep_inc (p0 p1 : ℚ) (ns : ℤ) (L : ℚ) :
    ∀ (l : List ℚ) (st : GridEngine),
      cyclesAt (l.foldl (closeStep p0 p1 ns) st) L > cyclesAt st L →
      st.armedFlag L = true ∧
      (l.foldl (closeStep p0 p1 ns) st).armedFlag L = false := by
  intro l
  induction l with
  | nil => intro st h; exact absurd h (lt_irrefl _)
  | cons a rest ih =>
    intro st h
    rw [List.foldl_cons] at h ⊢
    by_cases hch : cyclesAt (closeStep p0 p1 ns st a) L = cyclesAt st L
    · rw [← hch] at h
      obtain ⟨h1, h2⟩ := ih _ h
      exact ⟨closeStep_flag_mono p0 p1 ns st a L h1, h2⟩
    · obtain ⟨h1, h2⟩ := closeStep_cycles_changed p0 p1 ns st a L hch
      refine ⟨h1, ?_⟩
      cases hend : (rest.foldl (closeStep p0 p1 ns)
          (closeStep p0 p1 ns st a)).armedFlag L
      · rfl
      · exact absurd (foldl_closeStep_flag_mono p0 p1 ns L rest _ hend)
          (by simp [h2])

/-- A single `feed` call increments `cycles[L]` only from an armed state,
and leaves `L` unarmed afterwards (requires `spread > 0` so that in
exact-only mode the close level and the arm level of one tick differ). -/
theorem feed_inc {s : GridEngine} {L : ℚ} (price : ℚ) (ns : ℤ)
    (hsp : 0 < s.spread)
    (hinc : cyclesAt (s.feed price ns) L > cyclesAt s L) :
    s.armedFlag L = true ∧ (s.feed price ns).armedFlag L = false := by
  revert hinc
  dsimp only [GridEngine.feed]
  split
  · -- exact-only branch
    rw [cyclesAt_set_prev, cyclesAt_ite_arm]
    split
    · -- the guarded close fired
      rename_i hg
      intro hinc
      by_cases he : price - s.spread = L
      · subst he
        refine ⟨and_true_right hg, ?_⟩
        have hne : price - s.spread ≠ price :=
          ne_of_lt (sub_lt_self price hsp)
        by_cases hb : GridEngine.in_band { s with samples := s.samples + 1 }
            (price - s.spread) = false
        · rw [close_eq_of_not_in_band ns hb] at hinc
          exact absurd hinc (lt_irrefl _)
        · have hb' : GridEngine.in_band { s with samples := s.samples + 1 }
              (price - s.spread) = true := by simpa using hb
          exact (armedFlag_ite_arm_ne _ _ _ _ hne).trans
            (armedFlag_close_self ns hb')
      · rw [cyclesAt_close_ne ns (fun hh => he hh.symm)] at hinc
        exact absurd hinc (lt_irrefl _)
    · intro hinc
      exact absurd hinc (lt_irrefl _)
  · -- gap-aware branch
    split
    · intro hinc
      exact absurd hinc (lt_irrefl _)
    · rename_i p0 hprev
      split
      · -- downward move: only arms, cycles unchanged
        intro hinc
        have hlt : ¬ (cyclesAt (GridEngine.downPass
            { s with samples := s.samples + 1 } p0 price ns) L >
            cyclesAt { s with samples := s.samples + 1 } L) := by
          unfold GridEngine.downPass
          rw [foldl_armStep_cycles]
          exact lt_irrefl _
        exact absurd hinc hlt
      · split
        · -- upward move: guarded closes over the armed snapshot
          intro hinc
          exact foldl_closeStep_inc p0 price ns L
            (({ s with samples := s.samples + 1 } : GridEngine).armed.map
              Prod.fst)
            { s with samples := s.samples + 1 } hinc
        · intro hinc
          exact absurd hinc (lt_irrefl _)

/-- `cycles[L]` strictly increases during the feed of tick `n` (0-based). -/
def IncAt (e : GridEngine) (ts : List (ℚ × ℤ)) (n : ℕ) (L : ℚ) : Prop :=
  cyclesAt (stateAt e ts (n + 1)) L > cyclesAt (stateAt e ts n) L

/-- Level `L` becomes armed during the feed of tick `n` (0-based): its armed
flag goes from not-set to set.  `_arm` is the only operation that sets the
flag, so this is exactly an arm event for `L`. -/
def ArmEvtAt (e : GridEngine) (ts : List (ℚ × ℤ)) (n : ℕ) (L : ℚ) : Prop :=
  (stateAt e ts n).armedFlag L = false ∧
  (stateAt e ts (n + 1)).armedFlag L = true

theorem stateAt_succ (e : GridEngine) (ts : List (ℚ × ℤ)) (n : ℕ) :
    stateAt e ts (n + 1) =
      match ts[n]? with
      | some t => (stateAt e ts n).feed t.1 t.2
      | none => stateAt e ts n := by
  unfold stateAt runEngine
  rw [List.take_succ]
  cases h : ts[n]? <;> simp [List.foldl_append]

theorem spread_stateAt (e : GridEngine) (ts : List (ℚ × ℤ)) (n : ℕ) :
    (stateAt e ts n).spread = e.spread :=
  spread_eq_of_config (config_runEngine e (ts.take n))

theorem IncAt_flags {e : GridEngine} {ts : List (ℚ × ℤ)} {n : ℕ} {L : ℚ}
    (hsp : 0 < e.spread) (h : IncAt e ts n L) :
    (stateAt e ts n).armedFlag L = true ∧
    (stateAt e ts (n + 1)).armedFlag L = false := by
  unfold IncAt at h
  rw [stateAt_succ] at h ⊢
  cases hts : ts[n]? with
  | none =>
    rw [hts] at h
    exact absurd h (lt_irrefl _)
  | some t =>
    rw [hts] at h
    exact feed_inc t.1 t.2 (by rw [spread_stateAt]; exact hsp) h

theorem flag_flip (g : ℕ → Bool) :
    ∀ (d a : ℕ), g a = false → g (a + d) = true →
      ∃ k, a ≤ k ∧ k < a + d ∧ g k = false ∧ g (k + 1) = true := by
  intro d
  induction d with
  | zero =>
    intro a h0 h1
    rw [Nat.add_zero, h0] at h1
    cases h1
  | succ d ih =>
    intro a h0 h1
    cases hgd : g (a + d) with
    | false =>
      exact ⟨a + d, Nat.le_add_right a d, by omega, hgd, h1⟩
    | true =>
      obtain ⟨k, hk1, hk2, hk3, hk4⟩ := ih a h0 hgd
      exact ⟨k, hk1, by omega, hk3, hk4⟩

/-- C4: re-arm gating.  Between any two increments of `cycles[L]` (at ticks
`i < j`) there is an arm event for `L` at some strictly intermediate tick:
an increment closes `L` and leaves it unarmed, a later increment requires
the flag set again, and only `_arm` sets the flag. -/
theorem claim_C4 (step spread : ℚ) (eo : Bool) (lmin lmax : Option ℚ)
    (ts : List (ℚ × ℤ)) (L : ℚ) (i j : ℕ) (hsp : 0 < spread) (hij : i < j)
    (hi : IncAt (mkEngine step spread eo lmin lmax) ts i L)
    (hj : IncAt (mkEngine step spread eo lmin lmax) ts j L) :
    ∃ k, i < k ∧ k < j ∧ ArmEvtAt (mkEngine step spread eo lmin lmax) ts k L := by
  have hspE : 0 < (mkEngine step spread eo lmin lmax).spread := hsp
  have h1 := (IncAt_flags hspE hi).2
  have h2 := (IncAt_flags hspE hj).1
  rcases Nat.lt_or_ge (i + 1) j with hlt | hge
  · obtain ⟨d, hd⟩ : ∃ d, j = (i + 1) + d := ⟨j - (i + 1), by omega⟩
    subst hd
    obtain ⟨k, hk1, hk2, hk3, hk4⟩ :=
      flag_flip
        (fun n => (stateAt (mkEngine step spread eo lmin lmax) ts n).armedFlag L)
        d (i + 1) h1 h2
    exact ⟨k, by omega, by omega, hk3, hk4⟩
  · have hj1 : i + 1 = j := by omega
    rw [hj1] at h1
    rw [h1] at h2
    cases h2

/-- Witness for C4: unit grid, ticks 2,0,2,0,2; level 1 closes at ticks 2
and 4 and is re-armed at tick 3 in between. -/
theorem claim_C4_witness :
    (0 : ℚ) < 1 ∧
    IncAt (mkEngine 1 1 false none none)
      [(2, 0), (0, 1), (2, 2), (0, 3), (2, 4)] 2 1 ∧
    IncAt (mkEngine 1 1 false none none)
      [(2, 0), (0, 1), (2, 2), (0, 3), (2, 4)] 4 1 ∧
    ∃ k, 2 < k ∧ k < 4 ∧
      ArmEvtAt (mkEngine 1 1 false none none)
        [(2, 0), (0, 1), (2, 2), (0, 3), (2, 4)] k 1 :=
  ⟨by norm_num,
   by unfold IncAt stateAt; with_unfolding_all decide,
   by unfold IncAt stateAt; with_unfolding_all decide,
   claim_C4 1 1 false none none [(2, 0), (0, 1), (2, 2), (0, 3), (2, 4)] 1 2 4
     (by norm_num) (by omega)
     (by unfold IncAt stateAt; with_unfolding_all decide)
     (by unfold IncAt stateAt; with_unfolding_all decide)⟩
